import Mathlib

/-!
Verification of the JSON-Schema-Extractor core against its specification.

The Python modules `paths.py`, `accessors.py`, `records.py`, `schema_utils.py`,
`flattening.py` and `handlers_merge.py` are shallowly embedded below.  JSON
values parsed by Python's `json` module are modelled by `JVal`; the Python
value `None` (which is both the parse of JSON `null` and the "absent" marker
used throughout the code) is modelled by `JVal.null`.  Python dicts are
modelled as insertion-ordered association lists, and Python strings as Lean
strings manipulated at the `List Char` level (Python indexes strings by code
point, exactly as `List Char` does).
-/

/-! ## Definitions: shallow embedding of the Python sources -/

/-- A JSON value as produced by Python's `json.load`.  Numbers are modelled as
integers (no claim under verification depends on float behaviour). -/
inductive JVal where
  | null
  | bool (b : Bool)
  | num (n : Int)
  | str (s : String)
  | arr (items : List JVal)
  | obj (fields : List (String × JVal))

/-- A record: a Python dict, insertion ordered. -/
abbrev JRec := List (String × JVal)

/-- One character of `escape_path_segment`: `\` becomes `\\`, `.` becomes `\.`.
The Python source applies `str.replace('\\','\\\\')` then `.replace('.','\\.')`;
since the first pass introduces no `.` and the second introduces `\` only in
front of an original `.`, the two sequential passes act as this per-character
map. -/
def escChar (c : Char) : List Char :=
  if c = '\\' then ['\\', '\\']
  else if c = '.' then ['\\', '.'] else [c]

def escapeChars (s : List Char) : List Char :=
  s.flatMap escChar

/-- `escape_path_segment` from `paths.py`. -/
def escape_path_segment (s : String) : String :=
  String.mk (escapeChars s.data)

/-- `unescape_path_segment` from `paths.py`: left-to-right scan, a `\` followed
by any character emits that character; a trailing lone `\` is emitted. -/
def unescapeChars : List Char → List Char
  | [] => []
  | '\\' :: c :: rest => c :: unescapeChars rest
  | c :: rest => c :: unescapeChars rest

def unescape_path_segment (s : String) : String :=
  String.mk (unescapeChars s.data)

/-- The scanning loop of `split_path`, with the Python `escaping` flag made an
explicit argument.  An unescaped `\` sets the flag; the next character is then
buffered together with the backslash (so that `unescapeChars` resolves the
pair).  An unescaped `.` ends the current segment.  A `\` pending at end of
input is kept as a literal. -/
def splitLoop (escaping : Bool) (buf : List Char) : List Char → List (List Char)
  | [] => if escaping then [buf ++ ['\\']] else [buf]
  | c :: rest =>
    if escaping then splitLoop false (buf ++ ['\\', c]) rest
    else if c = '\\' then splitLoop true buf rest
    else if c = '.' then buf :: splitLoop false [] rest
    else splitLoop false (buf ++ [c]) rest

/-- `split_path` from `paths.py`: split on unescaped `.`, unescape each part,
drop parts that unescape to the empty string. -/
def split_path (path : String) : List String :=
  ((splitLoop false [] path.data).map (fun p => String.mk (unescapeChars p))).filter
    (fun p => p ≠ "")

/-- `'.'.join`, accumulator form (`joinDotted k rs` is `k` followed by each of
`rs` with a `.` in between). -/
def joinDotted (k : String) : List String → String
  | [] => k
  | r :: rs => joinDotted (k ++ "." ++ r) rs

/-- `'.'.join(segs)` for a whole list. -/
def joinDots : List String → String
  | [] => ""
  | s :: rest => joinDotted s rest

/-- Python `val is None` on a parsed JSON value. -/
def JVal.isNull : JVal → Bool
  | .null => true
  | _ => false

/-- Dict lookup, first matching key (`container.get(key)` / `key in container`).
Parsed JSON dicts have unique keys; insertion order is preserved. -/
def lookupRec : JRec → String → Option JVal
  | [], _ => none
  | (k, v) :: rest, key => if k = key then some v else lookupRec rest key

mutual
/-- `collect_values` nested helper of `get_value_by_path`: from a dict, take
the value at `key` if it is present and not `None`; from a list, collect
recursively over the elements in order; anything else contributes nothing. -/
def collectValues (container : JVal) (key : String) : List JVal :=
  match container with
  | .obj kvs =>
    match lookupRec kvs key with
    | some v => if v.isNull then [] else [v]
    | none => []
  | .arr items => collectValuesList items key
  | _ => []

def collectValuesList (items : List JVal) (key : String) : List JVal :=
  match items with
  | [] => []
  | it :: rest => collectValues it key ++ collectValuesList rest key
end

/-- The re-join fallback of `get_value_by_path`: with `cand` the candidate
built so far, append each later segment in turn with a literal `.` and retry
the dict lookup; on the first hit return the value and the unconsumed
segments. -/
def findRejoin (kvs : JRec) (cand : String) : List String → Option (JVal × List String)
  | [] => none
  | r :: rs =>
    match lookupRec kvs (cand ++ "." ++ r) with
    | some v => some (v, rs)
    | none => findRejoin kvs (cand ++ "." ++ r) rs

/-- The traversal loop of `get_value_by_path` over the split segments.
Python's `val` is the first argument; a hop that yields `None` (absent key
with no re-join match, a `null` value, an empty broadcast, or a scalar with
segments left) early-exits with `None` (`JVal.null`). -/
def goPath (v : JVal) (keys : List String) : JVal :=
  match v, keys with
  | v, [] => v
  | .obj kvs, key :: rest =>
    match lookupRec kvs key with
    | some w => if w.isNull then .null else goPath w rest
    | none =>
      match hfr : findRejoin kvs key rest with
      | some vr => if vr.1.isNull then .null else goPath vr.1 vr.2
      | none => .null
  | .arr items, key :: rest =>
    let vs := collectValuesList items key
    if vs.isEmpty then .null else goPath (.arr vs) rest
  | _, _ :: _ => .null
termination_by keys.length
decreasing_by
  · simp
  · have aux : ∀ (l : List String) (c : String) (p : JVal × List String),
        findRejoin kvs c l = some p → p.2.length < l.length := by
      intro l
      induction l with
      | nil => intro c p h; simp [findRejoin] at h
      | cons r rs ih =>
        intro c p h
        rw [findRejoin] at h
        cases hl : lookupRec kvs (c ++ "." ++ r) with
        | some w => rw [hl] at h; cases h; simp
        | none =>
          rw [hl] at h
          exact Nat.lt_succ_of_lt (ih _ p h)
    exact Nat.lt_succ_of_lt (aux rest key vr hfr)
  · simp

/-- `get_value_by_path` from `accessors.py`. -/
def get_value_by_path (data : JVal) (path : String) : JVal :=
  goPath data (split_path path)

/-- Python dict assignment `d[key] = v`: replace in place if the key exists,
else append. -/
def pyDictSet : JRec → String → JVal → JRec
  | [], key, v => [(key, v)]
  | (k, w) :: rest, key, v =>
    if k = key then (k, v) :: rest else (k, w) :: pyDictSet rest key v

/-- The walk of `set_value_by_path` over the split parts: for every part but
the last, descend into the value at that key if it is a dict, otherwise
replace it with a fresh empty dict; assign the value at the last part.
(The empty-parts case is unreachable: the caller returns `none` for it,
modelling the uncaught `IndexError` of `parts[-1]` on an empty list.) -/
def setParts : JRec → List String → JVal → JRec
  | kvs, [], _ => kvs
  | kvs, [p], v => pyDictSet kvs p v
  | kvs, p :: q :: rest, v =>
    let nxt : JRec :=
      match lookupRec kvs p with
      | some (.obj k2) => k2
      | _ => []
    pyDictSet kvs p (.obj (setParts nxt (q :: rest) v))

/-- `set_value_by_path` from `accessors.py`.  `none` models the uncaught
`IndexError` raised when the path is a non-sentinel string whose split is
empty (e.g. `"."`). -/
def set_value_by_path (data : JVal) (path : String) (value : JVal) : Option JVal :=
  if path = "" ∨ path = "(root)" then some value
  else
    match data with
    | .obj kvs =>
      match split_path path with
      | [] => none
      | p :: rest => some (.obj (setParts kvs (p :: rest) value))
    | _ => some value

/-- `resolve_items_by_root`: the sentinel (or empty) root returns the document
itself if it is a list, else a singleton; otherwise the value resolver is
consulted, a list is returned as is, a non-`None` value is wrapped, and
`None`/absent yields the empty list. -/
def resolve_items_by_root (data : JVal) (root_path : String) : List JVal :=
  if data.isNull then []
  else if root_path = "" ∨ root_path = "(root)" then
    match data with
    | .arr xs => xs
    | _ => [data]
  else
    match get_value_by_path data root_path with
    | .arr xs => xs
    | .null => []
    | v => [v]

/-- Keep only the dict elements of a list (`[x for x in entry if isinstance(x, dict)]`). -/
def onlyDicts : List JVal → List JRec
  | [] => []
  | .obj kvs :: rest => kvs :: onlyDicts rest
  | _ :: rest => onlyDicts rest

/-- The accumulation loop of `resolve_groups_for_merge`: a list item switches
to grouped mode and becomes one group of its dict members; a dict item becomes
its own one-record group; anything else is skipped. -/
def rgfmLoop : List JVal → List (List JRec) → Bool → List (List JRec) × Bool
  | [], acc, grouped => (acc, grouped)
  | .arr xs :: rest, acc, _ => rgfmLoop rest (acc ++ [onlyDicts xs]) true
  | .obj kvs :: rest, acc, grouped => rgfmLoop rest (acc ++ [[kvs]]) grouped
  | _ :: rest, acc, grouped => rgfmLoop rest acc grouped

/-- `resolve_groups_for_merge` from `records.py`: if grouped mode was never
entered and there are groups, collapse the one-record groups into a single
flat group. -/
def resolve_groups_for_merge (data : JVal) (root_path : String) :
    List (List JRec) × Bool :=
  let gg := rgfmLoop (resolve_items_by_root data root_path) [] false
  if gg.2 = false ∧ gg.1.isEmpty = false then ([gg.1.flatten], false) else gg

/-- Character-level `startswith`. -/
def startsWithChars : List Char → List Char → Bool
  | [], _ => true
  | _ :: _, [] => false
  | p :: ps, c :: cs => p = c && startsWithChars ps cs

/-- `resolve_field_value` from `records.py`: with the sentinel root resolve
against the record; a field equal to the root is the record itself; a field
under `root + "."` is resolved relatively against the record; any other field
is resolved against the whole document. -/
def resolve_field_value (data : JVal) (item : JVal) (field_path : String)
    (root_path : String) : JVal :=
  if root_path = "" ∨ root_path = "(root)" then get_value_by_path item field_path
  else if field_path = root_path then item
  else if startsWithChars (root_path ++ ".").data field_path.data then
    get_value_by_path item
      (String.mk (field_path.data.drop (root_path ++ ".").data.length))
  else get_value_by_path data field_path

def hexDigit (n : Nat) : Char :=
  if n < 10 then Char.ofNat (48 + n) else Char.ofNat (87 + n)

def hex4 (n : Nat) : String :=
  String.mk [hexDigit (n / 4096 % 16), hexDigit (n / 256 % 16),
             hexDigit (n / 16 % 16), hexDigit (n % 16)]

/-- One character of a JSON string literal, as `json.dumps` emits it.  With
`ascii := true` (Python's default `ensure_ascii=True`) every character outside
`0x20`–`0x7E` is `\uXXXX`-escaped (surrogate pairs above `0xFFFF`); with
`ascii := false` only the mandatory escapes apply. -/
def escJsonChar (ascii : Bool) (c : Char) : String :=
  if c = '"' then "\\\""
  else if c = '\\' then "\\\\"
  else if c = '\n' then "\\n"
  else if c = '\r' then "\\r"
  else if c = '\t' then "\\t"
  else if c.toNat = 8 then "\\b"
  else if c.toNat = 12 then "\\f"
  else if c.toNat < 32 then "\\u" ++ hex4 c.toNat
  else if ascii ∧ 127 ≤ c.toNat then
    if c.toNat < 65536 then "\\u" ++ hex4 c.toNat
    else
      "\\u" ++ hex4 (55296 + (c.toNat - 65536) / 1024)
        ++ "\\u" ++ hex4 (56320 + (c.toNat - 65536) % 1024)
  else String.singleton c

def jsonQuote (ascii : Bool) (s : String) : String :=
  "\"" ++ String.join (s.data.map (escJsonChar ascii)) ++ "\""

/-- Lexicographic comparison of strings by code point (Python `<=` on `str`). -/
def charsLe : List Char → List Char → Bool
  | [], _ => true
  | _ :: _, [] => false
  | a :: as, b :: bs => if a = b then charsLe as bs else decide (a < b)

def strLe (a b : String) : Bool := charsLe a.data b.data

def insertSortedStr (x : String) : List String → List String
  | [] => [x]
  | y :: rest => if strLe x y then x :: y :: rest else y :: insertSortedStr x rest

/-- Python `sorted` on a list of strings (stable insertion sort, lexicographic
by code point). -/
def sortStrings (l : List String) : List String := l.foldr insertSortedStr []

def insertSortedPair (x : String × JVal) : JRec → JRec
  | [] => [x]
  | y :: rest => if strLe x.1 y.1 then x :: y :: rest else y :: insertSortedPair x rest

/-- Sort dict entries by key (what `json.dumps(..., sort_keys=True)` does to
each object as it serializes it). -/
def sortPairsByKey (kvs : JRec) : JRec := kvs.foldr insertSortedPair []

mutual
/-- Recursively sort every object's entries by key; serializing the result in
insertion order is exactly `json.dumps(..., sort_keys=True)`. -/
def sortKeysRec : JVal → JVal
  | .arr xs => .arr (sortKeysList xs)
  | .obj kvs => .obj (sortPairsByKey (sortKeysFields kvs))
  | v => v

def sortKeysList : List JVal → List JVal
  | [] => []
  | x :: rest => sortKeysRec x :: sortKeysList rest

def sortKeysFields : JRec → JRec
  | [] => []
  | (k, v) :: rest => (k, sortKeysRec v) :: sortKeysFields rest
end

mutual
/-- Python `json.dumps` with default separators `', '` and `': '`.  It is
total on parsed JSON values: the `TypeError` fallback in the Python sources
can never fire for them. -/
def pyDumps (ascii : Bool) : JVal → String
  | .null => "null"
  | .bool true => "true"
  | .bool false => "false"
  | .num n => toString n
  | .str s => jsonQuote ascii s
  | .arr xs => "[" ++ pyDumpsList ascii xs ++ "]"
  | .obj kvs => "\x7b" ++ pyDumpsFields ascii kvs ++ "\x7d"

def pyDumpsList (ascii : Bool) : List JVal → String
  | [] => ""
  | [x] => pyDumps ascii x
  | x :: y :: rest => pyDumps ascii x ++ ", " ++ pyDumpsList ascii (y :: rest)

def pyDumpsFields (ascii : Bool) : JRec → String
  | [] => ""
  | [(k, v)] => jsonQuote ascii k ++ ": " ++ pyDumps ascii v
  | (k, v) :: p :: rest =>
    jsonQuote ascii k ++ ": " ++ pyDumps ascii v ++ ", " ++ pyDumpsFields ascii (p :: rest)
end

/-- Python `str.strip()` (ASCII whitespace; the exotic Unicode spaces Python
also strips do not occur in any claim). -/
def pyIsSpaceChar (c : Char) : Bool :=
  c = ' ' || c = '\t' || c = '\n' || c = '\r' || c.toNat = 11 || c.toNat = 12

def pyStrip (s : String) : String :=
  String.mk (((s.data.dropWhile pyIsSpaceChar).reverse.dropWhile pyIsSpaceChar).reverse)

/-- `normalize_key_component`: strings are trimmed; dicts/lists are
canonicalized via key-sorted `json.dumps`; other scalars pass through.
(`json.dumps` is total on parsed JSON values, so the Python `TypeError`
fallback to `str(value)` is dead code here.) -/
def normalize_key_component : JVal → JVal
  | .str s => .str (pyStrip s)
  | .obj kvs => .str (pyDumps true (sortKeysRec (.obj kvs)))
  | .arr xs => .str (pyDumps true (sortKeysRec (.arr xs)))
  | v => v

/-- `build_join_key_tuple`: normalized values of the join paths, resolved
against the record itself. -/
def build_join_key_tuple (item : JVal) (join_paths : List String) : List JVal :=
  join_paths.map (fun p => normalize_key_component (get_value_by_path item p))

mutual
/-- Structural equality of parsed JSON values (Python `==`), used for join-key
tuple comparison. -/
def JVal.beq : JVal → JVal → Bool
  | .null, .null => true
  | .bool a, .bool b => a == b
  | .num a, .num b => a == b
  | .str a, .str b => a == b
  | .arr xs, .arr ys => JVal.beqList xs ys
  | .obj xs, .obj ys => JVal.beqFields xs ys
  | _, _ => false

def JVal.beqList : List JVal → List JVal → Bool
  | [], [] => true
  | x :: xs, y :: ys => JVal.beq x y && JVal.beqList xs ys
  | _, _ => false

def JVal.beqFields : JRec → JRec → Bool
  | [], [] => true
  | (k1, v1) :: xs, (k2, v2) :: ys => k1 == k2 && JVal.beq v1 v2 && JVal.beqFields xs ys
  | _, _ => false
end

/-- The multimap from join-key tuple to the secondary record indices bearing
that key (`secondary_index` in `perform_dataset_merge`). -/
abbrev JoinIndex := List (List JVal × List Nat)

/-- `secondary_index.setdefault(key, []).append(idx)`. -/
def indexInsert : JoinIndex → List JVal → Nat → JoinIndex
  | [], k, i => [(k, [i])]
  | e :: rest, k, i =>
    if JVal.beqList e.1 k then (e.1, e.2 ++ [i]) :: rest else e :: indexInsert rest k i

/-- `secondary_index.get(key, [])`. -/
def indexGet : JoinIndex → List JVal → List Nat
  | [], _ => []
  | e :: rest, k => if JVal.beqList e.1 k then e.2 else indexGet rest k

def buildIndex (recs : List JRec) (jk : List String) : JoinIndex :=
  recs.enum.foldl
    (fun m p => indexInsert m (build_join_key_tuple (.obj p.2) jk) p.1) []

/-- `build_merged_record`: start from the primary record (or the secondary one
if the primary is not a dict), then fill in each secondary entry only where
the key is missing or currently `None`.  The Python `deepcopy` calls are
identities in this pure model. -/
def build_merged_record (primary_record secondary_record : JVal) : JRec :=
  let m0 : JRec :=
    match primary_record with
    | .obj kvs => kvs
    | _ =>
      match secondary_record with
      | .obj kvs2 => kvs2
      | _ => []
  match secondary_record with
  | .obj skvs =>
    skvs.foldl (fun m kv =>
      match lookupRec m kv.1 with
      | none => pyDictSet m kv.1 kv.2
      | some w => if w.isNull then pyDictSet m kv.1 kv.2 else m) m0
  | _ => m0

/-- `matched_secondary.add(idx)` on the insertion-ordered set model. -/
def addMatched (s : List Nat) (i : Nat) : List Nat :=
  if i ∈ s then s else s ++ [i]

/-- The inner loop of `perform_dataset_merge` over one primary group's items:
threads the merged rows (ungrouped mode), the current group's bucket (grouped
mode), the matched-secondary set, the match-pair count and the
primary-unmatched count. -/
def mergeItems (grouped : Bool) (secRecs : List JRec) (index : JoinIndex)
    (jk : List String) :
    List JRec → List JRec → List JRec → List Nat → Nat → Nat →
      List JRec × List JRec × List Nat × Nat × Nat
  | [], rows, bucket, m, pr, po => (rows, bucket, m, pr, po)
  | item :: rest, rows, bucket, m, pr, po =>
    let hits := indexGet index (build_join_key_tuple (.obj item) jk)
    if hits.isEmpty then
      mergeItems grouped secRecs index jk rest rows bucket m pr (po + 1)
    else
      let merged := hits.map
        (fun idx => build_merged_record (.obj item) (.obj (secRecs.getD idx [])))
      mergeItems grouped secRecs index jk rest
        (if grouped then rows else rows ++ merged)
        (if grouped then bucket ++ merged else bucket)
        (hits.foldl addMatched m)
        (pr + hits.length) po

/-- The outer loop of `perform_dataset_merge` over the primary groups; in
grouped mode each finished group's bucket becomes `merged_groups[group_idx]`. -/
def mergeGroupsLoop (grouped : Bool) (secRecs : List JRec) (index : JoinIndex)
    (jk : List String) :
    List (List JRec) → List JRec → List (List JRec) → List Nat → Nat → Nat →
      List JRec × List (List JRec) × List Nat × Nat × Nat
  | [], rows, gacc, m, pr, po => (rows, gacc, m, pr, po)
  | g :: gs, rows, gacc, m, pr, po =>
    match mergeItems grouped secRecs index jk g rows [] m pr po with
    | (rows2, bucket, m2, pr2, po2) =>
      mergeGroupsLoop grouped secRecs index jk gs rows2
        (if grouped then gacc ++ [bucket] else gacc) m2 pr2 po2

/-- The statistics dict built at the end of `perform_dataset_merge`. -/
structure MergeStats where
  primary_total : Nat
  secondary_total : Nat
  match_pairs : Nat
  primary_only : Nat
  secondary_only : Nat
deriving DecidableEq

/-- The merged payload: `merged_groups` when the primary root was grouped,
`merged_rows` otherwise. -/
inductive MergedPayload where
  | flat (rows : List JRec)
  | grouped (groups : List (List JRec))

/-- `perform_dataset_merge` from `handlers_merge.py`; `Except.error` models
the `ValueError`s it raises. -/
def perform_dataset_merge (primary_data secondary_data : JVal)
    (primary_root secondary_root : String) (join_keys : List String) :
    Except String (MergedPayload × MergeStats) :=
  if primary_data.isNull ∨ secondary_data.isNull then
    .error "Upload both datasets before merging."
  else if join_keys.isEmpty then .error "Select at least one join key."
  else
    let jk := join_keys.filter (fun k => k ≠ "")
    if jk.isEmpty then .error "Select valid join keys."
    else
      let pg := resolve_groups_for_merge primary_data primary_root
      let sg := resolve_groups_for_merge secondary_data secondary_root
      let primary_records := pg.1.flatten
      let secondary_records := sg.1.flatten
      if primary_records.isEmpty then
        .error "Primary dataset has no iterable items for the selected root path."
      else if secondary_records.isEmpty then
        .error "Secondary dataset has no iterable items for the selected root path."
      else
        let index := buildIndex secondary_records jk
        let r := mergeGroupsLoop pg.2 secondary_records index jk pg.1 [] [] [] 0 0
        let stats : MergeStats :=
          ⟨primary_records.length, secondary_records.length, r.2.2.2.1,
           r.2.2.2.2, secondary_records.length - r.2.2.1.length⟩
        .ok (if pg.2 then .grouped r.2.1 else .flat r.1, stats)

/-- `build_merged_output_container`: the sentinel root returns the merged
payload itself; otherwise, for a dict primary, deep-copy (an identity here)
and write the payload at the root path; a non-dict primary also returns the
payload itself. -/
def build_merged_output_container (primary_data : JVal) (primary_root : String)
    (merged_items : JVal) : Option JVal :=
  if primary_root = "" ∨ primary_root = "(root)" then some merged_items
  else
    match primary_data with
    | .obj kvs => set_value_by_path (.obj kvs) primary_root merged_items
    | _ => some merged_items

/-- The merged records produced from one primary group, in the group's record
order: for each item, one merged record per matching secondary index, in
index order. -/
def mergeOneGroup (secRecs : List JRec) (index : JoinIndex) (jk : List String)
    (g : List JRec) : List JRec :=
  g.flatMap (fun item =>
    (indexGet index (build_join_key_tuple (.obj item) jk)).map
      (fun idx => build_merged_record (.obj item) (.obj (secRecs.getD idx []))))

/-- Observer: pure dict-only traversal of a document along explicit segments
(used to compare nodes of the output and input documents). -/
def getNode : JVal → List String → Option JVal
  | v, [] => some v
  | .obj kvs, p :: rest =>
    match lookupRec kvs p with
    | some v => getNode v rest
    | none => none
  | _, _ :: _ => none

/-- Two segment paths diverge: neither is a prefix of the other. -/
def divergesB : List String → List String → Bool
  | [], _ => false
  | _ :: _, [] => false
  | a :: as, b :: bs => if a = b then divergesB as bs else true

/-- Every hop of the path except the last exists in the document and is a
dict. -/
def dictChainB : JRec → List String → Bool
  | _, [] => true
  | _, [_] => true
  | kvs, p :: q :: rest =>
    match lookupRec kvs p with
    | some (.obj k2) => dictChainB k2 (q :: rest)
    | _ => false

/-- `mapping.get(field, field)` lookup. -/
def lookupName : List (String × String) → String → Option String
  | [], _ => none
  | (k, v) :: rest, key => if k = key then some v else lookupName rest key

/-- `isinstance(v, (str, int, float, bool)) or v is None`. -/
def isScalarOrNone : JVal → Bool
  | .str _ => true
  | .num _ => true
  | .bool _ => true
  | .null => true
  | _ => false

/-- Python `str()` of a scalar list element (only reached under the
all-scalar guard; `None` is handled separately by the caller). -/
def pyScalarStr : JVal → String
  | .str s => s
  | .num n => toString n
  | .bool true => "True"
  | .bool false => "False"
  | _ => ""

/-- One output row of `flatten_data_for_export`: for each selected field,
resolve it, render list values (scalar lists joined with `", "`, other lists
as compact JSON), and store it under the mapped column name. -/
def exportRow (data : JVal) (fields : List String)
    (mapping : List (String × String)) (root : String) (record : JRec) : JRec :=
  fields.foldl (fun row f =>
    let val := resolve_field_value data (.obj record) f root
    let rendered :=
      match val with
      | .arr xs =>
        if xs.all isScalarOrNone then
          .str (String.intercalate ", "
            (xs.map (fun v => if v.isNull then "" else pyScalarStr v)))
        else .str (pyDumps false (.arr xs))
      | v => v
    pyDictSet row ((lookupName mapping f).getD f) rendered) []

/-- `flatten_data_for_export` from `flattening.py`: iterate the records of all
groups (flattened), one row per record. -/
def flatten_data_for_export (data : JVal) (selected_fields : List String)
    (mapping : List (String × String)) (root_path : String) : List JRec :=
  ((resolve_groups_for_merge data root_path).1.flatten).map
    (exportRow data selected_fields mapping root_path)

/-- One output row of `flatten_data_for_preview` — the Python source
duplicates the export row logic verbatim. -/
def previewRow (data : JVal) (fields : List String)
    (mapping : List (String × String)) (root : String) (record : JRec) : JRec :=
  fields.foldl (fun row f =>
    let val := resolve_field_value data (.obj record) f root
    let rendered :=
      match val with
      | .arr xs =>
        if xs.all isScalarOrNone then
          .str (String.intercalate ", "
            (xs.map (fun v => if v.isNull then "" else pyScalarStr v)))
        else .str (pyDumps false (.arr xs))
      | v => v
    pyDictSet row ((lookupName mapping f).getD f) rendered) []

/-- Inner preview loop over one group's records, appending a row per record
and short-circuiting (flag `true`) once the row count reaches the limit. -/
def pvRecs (lim : Nat) (mk : JRec → JRec) : List JRec → List JRec → List JRec × Bool
  | [], rows => (rows, false)
  | r :: rs, rows =>
    let rows2 := rows ++ [mk r]
    if lim ≤ rows2.length then (rows2, true) else pvRecs lim mk rs rows2

/-- Outer preview loop over the groups. -/
def pvGroups (lim : Nat) (mk : JRec → JRec) : List (List JRec) → List JRec → List JRec
  | [], rows => rows
  | g :: gs, rows =>
    match pvRecs lim mk g rows with
    | (rows2, true) => rows2
    | (rows2, false) => pvGroups lim mk gs rows2

/-- `flatten_data_for_preview` from `flattening.py`: empty on a missing
document or empty field selection, otherwise the same per-row logic as the
export, capped at `max 1 limit` rows. -/
def flatten_data_for_preview (data : JVal) (selected_fields : List String)
    (mapping : List (String × String)) (root_path : String) (limit : Nat) : List JRec :=
  if data.isNull ∨ selected_fields.isEmpty then []
  else
    pvGroups (max 1 limit) (previewRow data selected_fields mapping root_path)
      (resolve_groups_for_merge data root_path).1 []

/-- The rendering rule applied to each resolved field value, as the (amended)
spec states it: a list of only scalars/nulls is joined with `", "` (null as
the empty string); any *other list* becomes a compact JSON string; every
non-list value — objects included — is placed in the row unchanged. -/
def renderValueSpec (val : JVal) : JVal :=
  match val with
  | .arr xs =>
    if xs.all isScalarOrNone then
      .str (String.intercalate ", "
        (xs.map (fun v => if v.isNull then "" else pyScalarStr v)))
    else .str (pyDumps false (.arr xs))
  | v => v

/-- Python `set.add` on the insertion-ordered duplicate-free list model of a
set (only membership is ever observed, via the final `sorted`). -/
def setAdd (s : List String) (x : String) : List String :=
  if x ∈ s then s else s ++ [x]

/-- Python `set.update`. -/
def setUnion (s t : List String) : List String := t.foldl setAdd s

mutual
/-- `extract_all_keys` from `schema_utils.py`: all dot-path keys of a JSON
value; dict entries recurse with the escaped key appended to the parent path,
lists recurse with the unchanged parent path (a primitive element contributes
the parent path itself), scalars contribute the parent path when non-empty. -/
def extract_all_keys : JVal → String → List String
  | .obj kvs, parent => eakPairs kvs parent []
  | .arr items, parent => eakItems items parent []
  | _, parent => if parent = "" then [] else [parent]

def eakPairs : JRec → String → List String → List String
  | [], _, ks => ks
  | (k, v) :: rest, parent, ks =>
    let ck := if parent = "" then escape_path_segment k
              else parent ++ "." ++ escape_path_segment k
    let ks2 :=
      match v with
      | .obj _ => setUnion ks (extract_all_keys v ck)
      | .arr _ => setUnion ks (extract_all_keys v ck)
      | _ => setAdd ks ck
    eakPairs rest parent ks2

def eakItems : List JVal → String → List String → List String
  | [], _, ks => ks
  | it :: rest, parent, ks =>
    let ks2 :=
      match it with
      | .obj _ => setUnion ks (extract_all_keys it parent)
      | .arr _ => setUnion ks (extract_all_keys it parent)
      | _ => if parent = "" then ks else setAdd ks parent
    eakItems rest parent ks2
end

/-- The record update applied per sampled record in `extract_record_keys`. -/
def erkUpd (ks : List String) (r : JRec) : List String :=
  setUnion ks (extract_all_keys (.obj r) "")

/-- Inner sampling loop of `extract_record_keys` over one group's records:
updates the key set, decrements `remaining`, and signals early return (flag
`true`) once `remaining` drops to zero or below. -/
def erkRecs : List JRec → Int → List String → List String × Int × Bool
  | [], rem, ks => (ks, rem, false)
  | r :: rs, rem, ks =>
    let ks2 := erkUpd ks r
    if rem - 1 ≤ 0 then (ks2, rem - 1, true) else erkRecs rs (rem - 1) ks2

/-- Outer sampling loop of `extract_record_keys` over the groups. -/
def erkGroups : List (List JRec) → Int → List String → List String
  | [], _, ks => ks
  | g :: gs, rem, ks =>
    match erkRecs g rem ks with
    | (ks2, _, true) => ks2
    | (ks2, rem2, false) => erkGroups gs rem2 ks2

/-- `extract_record_keys` from `records.py`: union `extract_all_keys` over the
sampled records under the resolved root and return the sorted result. -/
def extract_record_keys (data : JVal) (root_path : String) (sample_size : Int) :
    List String :=
  sortStrings
    (erkGroups (resolve_groups_for_merge data root_path).1 (max 0 sample_size) [])

/-! ## Theorems -/

theorem unescapeChars_cons_ne (c : Char) (l : List Char) (h : c ≠ '\\') :
    unescapeChars (c :: l) = c :: unescapeChars l := by
  rw [unescapeChars.eq_def]
  split
  · simp_all
  · simp_all
  · simp_all

theorem unescapeChars_escapeChars_append (s t : List Char) :
    unescapeChars (escapeChars s ++ t) = s ++ unescapeChars t := by
  induction s with
  | nil => simp [escapeChars]
  | cons c cs ih =>
    by_cases hb : c = '\\'
    · subst hb
      simp only [escapeChars, List.flatMap_cons, escChar, if_pos rfl, List.cons_append,
        List.append_assoc]
      show unescapeChars ('\\' :: '\\' :: _) = _
      rw [unescapeChars]
      simpa [escapeChars] using congrArg (List.cons '\\') (by simpa [escapeChars] using ih)
    · by_cases hd : c = '.'
      · subst hd
        simp only [escapeChars, List.flatMap_cons, escChar, List.cons_append,
          List.append_assoc]
        show unescapeChars ('\\' :: '.' :: _) = _
        rw [unescapeChars]
        simpa [escapeChars] using congrArg (List.cons '.') (by simpa [escapeChars] using ih)
      · simp only [escapeChars, List.flatMap_cons, escChar, if_neg hb, if_neg hd,
          List.cons_append]
        rw [unescapeChars_cons_ne c _ hb]
        simpa [escapeChars] using congrArg (List.cons c) (by simpa [escapeChars] using ih)

theorem unescapeChars_escapeChars (s : List Char) :
    unescapeChars (escapeChars s) = s := by
  simpa [unescapeChars] using unescapeChars_escapeChars_append s []

theorem splitLoop_escapeChars_append (s : List Char) (buf rest : List Char) :
    splitLoop false buf (escapeChars s ++ rest)
      = splitLoop false (buf ++ escapeChars s) rest := by
  induction s generalizing buf with
  | nil => simp [escapeChars]
  | cons c cs ih =>
    by_cases hb : c = '\\'
    · subst hb
      simp only [escapeChars, List.flatMap_cons, escChar, if_pos rfl, List.cons_append,
        List.append_assoc]
      show splitLoop false buf ('\\' :: '\\' :: _) = _
      rw [show ∀ t, splitLoop false buf ('\\' :: '\\' :: t)
            = splitLoop false (buf ++ ['\\', '\\']) t from fun t => rfl]
      simpa [escapeChars, List.append_assoc] using ih (buf ++ ['\\', '\\'])
    · by_cases hd : c = '.'
      · subst hd
        simp only [escapeChars, List.flatMap_cons, escChar, List.cons_append,
          List.append_assoc]
        show splitLoop false buf ('\\' :: '.' :: _) = _
        rw [show ∀ t, splitLoop false buf ('\\' :: '.' :: t)
              = splitLoop false (buf ++ ['\\', '.']) t from fun t => rfl]
        simpa [escapeChars, List.append_assoc] using ih (buf ++ ['\\', '.'])
      · simp only [escapeChars, List.flatMap_cons, escChar, if_neg hb, if_neg hd,
          List.cons_append]
        rw [splitLoop]
        simp only [if_neg hb, if_neg hd, Bool.false_eq_true, if_false]
        simpa [escapeChars, List.append_assoc] using ih (buf ++ [c])

theorem splitLoop_escaped_join (rs : List (List Char)) (s : List Char) :
    splitLoop false [] (escapeChars s ++ rs.flatMap (fun r => '.' :: escapeChars r))
      = escapeChars s :: rs.map escapeChars := by
  induction rs generalizing s with
  | nil =>
    simpa using splitLoop_escapeChars_append s [] []
  | cons r rest ih =>
    simp only [List.flatMap_cons, List.map_cons]
    rw [show escapeChars s ++ (('.' :: escapeChars r) ++ rest.flatMap (fun r => '.' :: escapeChars r))
        = escapeChars s ++ ('.' :: (escapeChars r ++ rest.flatMap (fun r => '.' :: escapeChars r))) by simp,
      splitLoop_escapeChars_append s [] _]
    simp only [List.nil_append]
    rw [show ∀ t, splitLoop false (escapeChars s) ('.' :: t)
          = escapeChars s :: splitLoop false [] t from fun t => rfl]
    rw [ih r]

theorem joinDotted_data (rs : List String) (k : String) :
    (joinDotted k rs).data = k.data ++ rs.flatMap (fun r => '.' :: r.data) := by
  induction rs generalizing k with
  | nil => simp [joinDotted]
  | cons r rest ih =>
    rw [joinDotted, ih]
    simp [String.data_append]

theorem escape_data (s : String) :
    (escape_path_segment s).data = escapeChars s.data := rfl

/-- Claim C1 (amended): escaping each segment with `escape_path_segment`,
joining with `.` and re-splitting with `split_path` recovers the original
segment sequence, for any sequence of *non-empty* segments (including
segments containing literal `.` or `\`).  Segments equal to the empty string
are dropped by `split_path`'s final filter. -/
theorem map_escape_flat (rest : List String) :
    (rest.map escape_path_segment).flatMap (fun r => '.' :: r.data)
      = (rest.map String.data).flatMap (fun d => '.' :: escapeChars d) := by
  induction rest with
  | nil => rfl
  | cons r rs ih => simp only [List.map_cons, List.flatMap_cons, escape_data, ih]

theorem map_unescape_escape (rest : List String) :
    ((rest.map String.data).map escapeChars).map
        (fun p => String.mk (unescapeChars p)) = rest := by
  induction rest with
  | nil => rfl
  | cons r rs ih =>
    simp only [List.map_cons]
    rw [unescapeChars_escapeChars]
    exact congrArg (List.cons r) ih

theorem claim_C1_roundtrip (segs : List String) (h : ∀ s ∈ segs, s ≠ "") :
    split_path (joinDots (segs.map escape_path_segment)) = segs := by
  cases segs with
  | nil => rfl
  | cons s rest =>
    unfold split_path
    rw [show joinDots ((s :: rest).map escape_path_segment)
          = joinDotted (escape_path_segment s) (rest.map escape_path_segment) from rfl]
    rw [joinDotted_data, map_escape_flat, escape_data, splitLoop_escaped_join]
    rw [List.map_cons, unescapeChars_escapeChars, map_unescape_escape]
    rw [show String.mk s.data = s from rfl]
    rw [List.filter_eq_self.mpr]
    intro a ha
    have := h a ha
    simpa using this

/-- Witness for Claim C1 on a concrete segment list containing a literal dot
and a literal backslash. -/
theorem claim_C1_witness :
    (∀ s ∈ ["gpt-3.5", "back\\slash", "plain"], s ≠ "") ∧
      split_path (joinDots (["gpt-3.5", "back\\slash", "plain"].map escape_path_segment))
        = ["gpt-3.5", "back\\slash", "plain"] :=
  ⟨by decide, claim_C1_roundtrip ["gpt-3.5", "back\\slash", "plain"] (by decide)⟩

/-- Counterexample to Claim C1 as stated: the segment sequence consisting of
one empty string is not recovered — `split_path` drops segments that unescape
to the empty string, so the round trip loses it. -/
theorem claim_C1_counterexample :
    split_path (joinDots ([""].map escape_path_segment)) = []
      ∧ ([] : List String) ≠ [""] := by
  constructor
  · rfl
  · decide

theorem findRejoin_characterization (kvs : JRec) :
    ∀ (rest : List String) (cand : String),
      (findRejoin kvs cand rest = none
         ∧ ∀ n, 1 ≤ n → n ≤ rest.length →
             lookupRec kvs (joinDotted cand (rest.take n)) = none)
      ∨ (∃ n v, 1 ≤ n ∧ n ≤ rest.length
         ∧ lookupRec kvs (joinDotted cand (rest.take n)) = some v
         ∧ (∀ m, 1 ≤ m → m < n → lookupRec kvs (joinDotted cand (rest.take m)) = none)
         ∧ findRejoin kvs cand rest = some (v, rest.drop n)) := by
  intro rest
  induction rest with
  | nil =>
    intro cand
    left
    exact ⟨rfl, by intro n h1 h2; simp at h2; omega⟩
  | cons r rs ih =>
    intro cand
    cases hl : lookupRec kvs (cand ++ "." ++ r) with
    | some v =>
      right
      refine ⟨1, v, Nat.le_refl 1, by simp, ?_, ?_, ?_⟩
      · simpa [joinDotted] using hl
      · intro m h1 h2; omega
      · rw [findRejoin, hl]; rfl
    | none =>
      have key_take : ∀ (m : Nat), joinDotted cand ((r :: rs).take (m + 1))
          = joinDotted (cand ++ "." ++ r) (rs.take m) := by
        intro m; rfl
      rcases ih (cand ++ "." ++ r) with ⟨hnone, hall⟩ | ⟨n, v, hn1, hn2, hfound, hmin, hfr⟩
      · left
        constructor
        · rw [findRejoin, hl]; exact hnone
        · intro n h1 h2
          match n, h1 with
          | 1, _ => simpa [joinDotted] using hl
          | (m + 2), _ =>
            rw [key_take (m + 1)]
            exact hall (m + 1) (by omega) (by simpa using h2)
      · right
        refine ⟨n + 1, v, by omega, by simpa using hn2, ?_, ?_, ?_⟩
        · rw [key_take n]; exact hfound
        · intro m h1 h2
          match m, h1 with
          | 1, _ => simpa [joinDotted] using hl
          | (m' + 2), _ =>
            rw [key_take (m' + 1)]
            exact hmin (m' + 1) (by omega) (by omega)
        · rw [findRejoin, hl, hfr]; rfl

theorem goPath_null (keys : List String) : goPath .null keys = .null := by
  cases keys <;> simp [goPath]

/-- Claim C2: at a dict lacking the current segment, `get_value_by_path`
retries progressively longer candidates built by joining the current segment
with the following segments using a literal `.`; it takes the first
(shortest) matching candidate, consumes exactly the joined segments, and
continues the traversal from the matched value; if no joined candidate is a
key of the dict, resolution fails with the absent marker. -/
theorem claim_C2_rejoin_fallback (kvs : JRec) (key : String) (rest : List String)
    (h : lookupRec kvs key = none) :
    ((∀ n, 1 ≤ n → n ≤ rest.length →
         lookupRec kvs (joinDotted key (rest.take n)) = none)
       ∧ goPath (.obj kvs) (key :: rest) = .null)
    ∨ (∃ n v, 1 ≤ n ∧ n ≤ rest.length
       ∧ lookupRec kvs (joinDotted key (rest.take n)) = some v
       ∧ (∀ m, 1 ≤ m → m < n → lookupRec kvs (joinDotted key (rest.take m)) = none)
       ∧ goPath (.obj kvs) (key :: rest) = goPath v (rest.drop n)) := by
  rcases findRejoin_characterization kvs rest key with ⟨hnone, hall⟩ | ⟨n, v, hn1, hn2, hfound, hmin, hfr⟩
  · left
    refine ⟨hall, ?_⟩
    rw [goPath, h, hnone]
  · right
    refine ⟨n, v, hn1, hn2, hfound, hmin, ?_⟩
    rw [goPath, h, hfr]
    by_cases hv : v.isNull = true
    · have : v = .null := by cases v <;> simp [JVal.isNull] at hv ⊢
      subst this
      rw [goPath_null]
      rfl
    · show (if v.isNull = true then JVal.null else goPath v (rest.drop n))
          = goPath v (rest.drop n)
      rw [if_neg hv]

/-- Witness for Claim C2: the path `a.b` resolved against a dict whose only
key is the literal string `a.b`. -/
theorem claim_C2_witness :
    lookupRec [("a.b", JVal.num 7)] "a" = none
    ∧ (((∀ n, 1 ≤ n → n ≤ ["b"].length →
           lookupRec [("a.b", JVal.num 7)] (joinDotted "a" (["b"].take n)) = none)
         ∧ goPath (.obj [("a.b", JVal.num 7)]) ["a", "b"] = .null)
      ∨ (∃ n v, 1 ≤ n ∧ n ≤ ["b"].length
         ∧ lookupRec [("a.b", JVal.num 7)] (joinDotted "a" (["b"].take n)) = some v
         ∧ (∀ m, 1 ≤ m → m < n →
             lookupRec [("a.b", JVal.num 7)] (joinDotted "a" (["b"].take m)) = none)
         ∧ goPath (.obj [("a.b", JVal.num 7)]) ["a", "b"] = goPath v (["b"].drop n))) :=
  ⟨rfl, claim_C2_rejoin_fallback [("a.b", JVal.num 7)] "a" ["b"] rfl⟩

theorem isNull_false_iff (v : JVal) : v.isNull = false ↔ v ≠ .null := by
  cases v <;> simp [JVal.isNull]

mutual
theorem collect_no_null (c : JVal) (key : String) :
    JVal.null ∉ collectValues c key := by
  match c with
  | .obj kvs =>
    rw [collectValues]
    cases hl : lookupRec kvs key with
    | some v =>
      by_cases hv : v.isNull = true
      · simp [hv]
      · show JVal.null ∉ (if v.isNull = true then ([] : List JVal) else [v])
        rw [if_neg hv]
        intro h
        have hvf : v.isNull = false := by simpa using hv
        have hne := (isNull_false_iff v).mp hvf
        rw [List.mem_singleton] at h
        exact hne h.symm
    | none => simp
  | .arr items =>
    rw [collectValues]
    exact collectList_no_null items key
  | .null => simp [collectValues]
  | .bool b => simp [collectValues]
  | .num n => simp [collectValues]
  | .str s => simp [collectValues]

theorem collectList_no_null (items : List JVal) (key : String) :
    JVal.null ∉ collectValuesList items key := by
  match items with
  | [] => simp [collectValuesList]
  | it :: rest =>
    rw [collectValuesList]
    intro hmem
    rcases List.mem_append.mp hmem with h | h
    · exact collect_no_null it key h
    · exact collectList_no_null rest key h
end

/-- Claim C6 (amended): `get_value_by_path` uses Python `None` — the very
representation of JSON `null` — as its absent marker, so failure and a
resolved `null` are *not* distinguishable; a hop that resolves to `null`
early-exits with the same marker as a failed hop (so a successful resolution
never yields `null`), and broadcast over a list collects only the non-`None`
per-element results. -/
theorem claim_C6_null_is_absent :
    (∀ (kvs : JRec) (key : String) (rest : List String),
        lookupRec kvs key = some .null → goPath (.obj kvs) (key :: rest) = .null)
    ∧ (∀ (c : JVal) (key : String), JVal.null ∉ collectValues c key) := by
  constructor
  · intro kvs key rest h
    rw [goPath, h]
    rfl
  · exact collect_no_null

/-- Witness for Claim C6 at a concrete dict and a concrete broadcast. -/
theorem claim_C6_witness :
    goPath (.obj [("a", JVal.null)]) ["a"] = .null
    ∧ JVal.null ∉ collectValues (.arr [.obj [("b", JVal.null)], .obj [("b", JVal.num 2)]]) "b" :=
  ⟨claim_C6_null_is_absent.1 [("a", JVal.null)] "a" [] rfl,
   claim_C6_null_is_absent.2 _ "b"⟩

/-- Counterexample to Claim C6 as stated: resolving a key whose value is JSON
`null` returns the very same value as resolving an absent key — the absent
marker is not distinguishable from a resolved `null`. -/
theorem claim_C6_counterexample :
    get_value_by_path (JVal.obj [("a", JVal.null)]) "a"
        = get_value_by_path (JVal.obj []) "a"
    ∧ get_value_by_path (JVal.obj [("a", JVal.null)]) "a" = JVal.null := by
  have hsplit : split_path "a" = ["a"] := by decide
  unfold get_value_by_path
  rw [hsplit]
  constructor
  · rw [goPath, goPath]
    rfl
  · rw [goPath]
    rfl

/-- Claim C3: merging `[{"id":1,"x":"a"},{"id":2,"x":"b"}]` with
`[{"id":1,"y":"p"},{"id":3,"y":"q"}]` on join key `id` under root `(root)` on
both sides yields exactly the one merged record `{"id":1,"x":"a","y":"p"}`,
with statistics: 1 matched pair, 2 primary records (1 unmatched), 2 secondary
records (1 unmatched). -/
theorem claim_C3_merge_example :
    perform_dataset_merge
        (.arr [.obj [("id", JVal.num 1), ("x", JVal.str "a")],
               .obj [("id", JVal.num 2), ("x", JVal.str "b")]])
        (.arr [.obj [("id", JVal.num 1), ("y", JVal.str "p")],
               .obj [("id", JVal.num 3), ("y", JVal.str "q")]])
        "(root)" "(root)" ["id"]
      = .ok (.flat [[("id", JVal.num 1), ("x", JVal.str "a"), ("y", JVal.str "p")]],
             ⟨2, 2, 1, 1, 1⟩) := by
  have hsplit : split_path "id" = ["id"] := by decide
  simp only [perform_dataset_merge, resolve_groups_for_merge, resolve_items_by_root,
    rgfmLoop, onlyDicts, buildIndex, indexInsert, indexGet, build_join_key_tuple,
    get_value_by_path, hsplit, goPath, lookupRec, JVal.isNull, normalize_key_component,
    mergeGroupsLoop, mergeItems, build_merged_record, pyDictSet, addMatched,
    JVal.beqList, JVal.beq, List.enum, List.flatten, List.foldl, List.map]
  simp

/-- Claim C4: `perform_dataset_merge` reports an error — and produces nothing
else — exactly when a document is absent (`None`), the join-key list contains
no non-empty key, or either side resolves to zero records under its root; on
every other input it returns a payload and statistics (the function is total,
so no other fault can escape). -/
theorem claim_C4_merge_error_iff (p s : JVal) (pr sr : String) (jk : List String) :
    (∃ e, perform_dataset_merge p s pr sr jk = .error e)
      ↔ (p.isNull = true ∨ s.isNull = true
         ∨ jk.filter (fun k => k ≠ "") = []
         ∨ (resolve_groups_for_merge p pr).1.flatten = []
         ∨ (resolve_groups_for_merge s sr).1.flatten = []) := by
  simp only [perform_dataset_merge]
  split_ifs with h1 h2 h3 h4 h5
  · constructor
    · intro _
      rcases h1 with h | h
      · exact Or.inl h
      · exact Or.inr (Or.inl h)
    · intro _; exact ⟨_, rfl⟩
  · constructor
    · intro _
      have : jk = [] := by simpa using h2
      subst this
      exact Or.inr (Or.inr (Or.inl rfl))
    · intro _; exact ⟨_, rfl⟩
  · constructor
    · intro _
      exact Or.inr (Or.inr (Or.inl (by simpa using h3)))
    · intro _; exact ⟨_, rfl⟩
  · constructor
    · intro _
      exact Or.inr (Or.inr (Or.inr (Or.inl (by simpa using h4))))
    · intro _; exact ⟨_, rfl⟩
  · constructor
    · intro _
      exact Or.inr (Or.inr (Or.inr (Or.inr (by simpa using h5))))
    · intro _; exact ⟨_, rfl⟩
  · constructor
    · rintro ⟨e, he⟩
      exact absurd he (by simp)
    · intro hcases
      exfalso
      rcases hcases with h | h | h | h | h
      · exact h1 (Or.inl h)
      · exact h1 (Or.inr h)
      · exact h3 (by simpa using h)
      · exact h4 (by simpa using h)
      · exact h5 (by simpa using h)

theorem mergeItems_grouped (secRecs : List JRec) (index : JoinIndex)
    (jk : List String) (items : List JRec) :
    ∀ rows bucket m pr po,
      (mergeItems true secRecs index jk items rows bucket m pr po).1 = rows
      ∧ (mergeItems true secRecs index jk items rows bucket m pr po).2.1
          = bucket ++ mergeOneGroup secRecs index jk items := by
  induction items with
  | nil => intro rows bucket m pr po; simp [mergeItems, mergeOneGroup]
  | cons item rest ih =>
    intro rows bucket m pr po
    rw [mergeItems]
    by_cases hh : (indexGet index (build_join_key_tuple (.obj item) jk)).isEmpty = true
    · rw [if_pos hh]
      have hnil : indexGet index (build_join_key_tuple (.obj item) jk) = [] := by
        simpa using hh
      constructor
      · exact (ih rows bucket m pr (po + 1)).1
      · rw [(ih rows bucket m pr (po + 1)).2]
        simp [mergeOneGroup, hnil]
    · rw [if_neg hh]
      simp only [if_pos rfl]
      constructor
      · exact (ih _ _ _ _ _).1
      · rw [(ih _ _ _ _ _).2]
        simp [mergeOneGroup, List.append_assoc]

theorem mergeGroupsLoop_grouped (secRecs : List JRec) (index : JoinIndex)
    (jk : List String) (gs : List (List JRec)) :
    ∀ rows gacc m pr po,
      (mergeGroupsLoop true secRecs index jk gs rows gacc m pr po).2.1
        = gacc ++ gs.map (mergeOneGroup secRecs index jk) := by
  induction gs with
  | nil => intro rows gacc m pr po; simp [mergeGroupsLoop]
  | cons g rest ih =>
    intro rows gacc m pr po
    rw [mergeGroupsLoop]
    rcases hmi : mergeItems true secRecs index jk g rows [] m pr po with
      ⟨rows2, bucket, m2, pr2, po2⟩
    have hb : bucket = mergeOneGroup secRecs index jk g := by
      have := (mergeItems_grouped secRecs index jk g rows [] m pr po).2
      rw [hmi] at this
      simpa using this
    rw [ih]
    rw [hb]
    simp

/-- Claim C5: when the primary root resolves as grouped, the merged payload is
a list of groups of the same count and order as the primary groups, the i-th
output group holding exactly the merged records produced from the i-th primary
group in that group's record order. -/
theorem claim_C5_grouped_payload (p s : JVal) (pr sr : String) (jk : List String)
    (out : MergedPayload × MergeStats)
    (hok : perform_dataset_merge p s pr sr jk = .ok out)
    (hg : (resolve_groups_for_merge p pr).2 = true) :
    ∃ gs, out.1 = MergedPayload.grouped gs
      ∧ gs.length = (resolve_groups_for_merge p pr).1.length
      ∧ gs = (resolve_groups_for_merge p pr).1.map
          (mergeOneGroup ((resolve_groups_for_merge s sr).1.flatten)
            (buildIndex ((resolve_groups_for_merge s sr).1.flatten)
              (jk.filter (fun k => k ≠ "")))
            (jk.filter (fun k => k ≠ ""))) := by
  simp only [perform_dataset_merge] at hok
  split_ifs at hok
  cases hok
  have hloop := mergeGroupsLoop_grouped ((resolve_groups_for_merge s sr).1.flatten)
      (buildIndex ((resolve_groups_for_merge s sr).1.flatten) (jk.filter (fun k => k ≠ "")))
      (jk.filter (fun k => k ≠ "")) ((resolve_groups_for_merge p pr).1) [] [] [] 0 0
  refine ⟨(resolve_groups_for_merge p pr).1.map
      (mergeOneGroup ((resolve_groups_for_merge s sr).1.flatten)
        (buildIndex ((resolve_groups_for_merge s sr).1.flatten) (jk.filter (fun k => k ≠ "")))
        (jk.filter (fun k => k ≠ ""))), ?_, by simp, rfl⟩
  simp only [ne_eq, decide_not] at hloop
  simp [hg, hloop]

/-- Witness for Claim C5 on a concrete grouped primary dataset (two inner
groups, second one unmatched). -/
theorem claim_C5_witness :
    perform_dataset_merge
        (.arr [.arr [.obj [("id", JVal.num 1)]], .arr [.obj [("id", JVal.num 2)]]])
        (.arr [.obj [("id", JVal.num 1), ("y", JVal.str "p")]])
        "(root)" "(root)" ["id"]
      = .ok (.grouped [[[("id", JVal.num 1), ("y", JVal.str "p")]], []], ⟨2, 1, 1, 1, 0⟩)
    ∧ (resolve_groups_for_merge
        (.arr [.arr [.obj [("id", JVal.num 1)]], .arr [.obj [("id", JVal.num 2)]]])
        "(root)").2 = true
    ∧ ∃ gs,
        ((MergedPayload.grouped [[[("id", JVal.num 1), ("y", JVal.str "p")]], []],
           (⟨2, 1, 1, 1, 0⟩ : MergeStats)) : MergedPayload × MergeStats).1
          = MergedPayload.grouped gs
        ∧ gs.length = (resolve_groups_for_merge
            (.arr [.arr [.obj [("id", JVal.num 1)]], .arr [.obj [("id", JVal.num 2)]]])
            "(root)").1.length
        ∧ gs = (resolve_groups_for_merge
            (.arr [.arr [.obj [("id", JVal.num 1)]], .arr [.obj [("id", JVal.num 2)]]])
            "(root)").1.map
            (mergeOneGroup
              ((resolve_groups_for_merge
                (.arr [.obj [("id", JVal.num 1), ("y", JVal.str "p")]]) "(root)").1.flatten)
              (buildIndex
                ((resolve_groups_for_merge
                  (.arr [.obj [("id", JVal.num 1), ("y", JVal.str "p")]]) "(root)").1.flatten)
                (["id"].filter (fun k => k ≠ "")))
              (["id"].filter (fun k => k ≠ ""))) := by
  have hA : perform_dataset_merge
      (.arr [.arr [.obj [("id", JVal.num 1)]], .arr [.obj [("id", JVal.num 2)]]])
      (.arr [.obj [("id", JVal.num 1), ("y", JVal.str "p")]])
      "(root)" "(root)" ["id"]
      = .ok (.grouped [[[("id", JVal.num 1), ("y", JVal.str "p")]], []], ⟨2, 1, 1, 1, 0⟩) := by
    have hsplit : split_path "id" = ["id"] := by decide
    simp only [perform_dataset_merge, resolve_groups_for_merge, resolve_items_by_root,
      rgfmLoop, onlyDicts, buildIndex, indexInsert, indexGet, build_join_key_tuple,
      get_value_by_path, hsplit, goPath, lookupRec, JVal.isNull, normalize_key_component,
      mergeGroupsLoop, mergeItems, build_merged_record, pyDictSet, addMatched,
      JVal.beqList, JVal.beq, List.enum, List.flatten, List.foldl, List.map]
    simp
  have hB : (resolve_groups_for_merge
      (.arr [.arr [.obj [("id", JVal.num 1)]], .arr [.obj [("id", JVal.num 2)]]])
      "(root)").2 = true := by decide
  exact ⟨hA, hB, claim_C5_grouped_payload _ _ _ _ _ _ hA hB⟩

theorem lookupRec_pyDictSet_self (kvs : JRec) (k : String) (v : JVal) :
    lookupRec (pyDictSet kvs k v) k = some v := by
  induction kvs with
  | nil => simp [pyDictSet, lookupRec]
  | cons kv rest ih =>
    rcases kv with ⟨k1, v1⟩
    by_cases h : k1 = k
    · simp [pyDictSet, lookupRec, h]
    · simp [pyDictSet, lookupRec, h, ih]

theorem lookupRec_pyDictSet_ne (kvs : JRec) (k : String) (v : JVal)
    (k2 : String) (h : k2 ≠ k) :
    lookupRec (pyDictSet kvs k v) k2 = lookupRec kvs k2 := by
  induction kvs with
  | nil => simp [pyDictSet, lookupRec, Ne.symm h]
  | cons kv rest ih =>
    rcases kv with ⟨k1, v1⟩
    by_cases h1 : k1 = k
    · subst h1
      simp [pyDictSet, lookupRec, Ne.symm h]
    · simp only [pyDictSet, if_neg h1]
      by_cases h2 : k1 = k2
      · simp [lookupRec, h2]
      · simp [lookupRec, h2, ih]

theorem setParts_getNode (ps : List String) :
    ∀ (kvs : JRec) (v : JVal), ps ≠ [] → dictChainB kvs ps = true →
      getNode (.obj (setParts kvs ps v)) ps = some v
      ∧ ∀ q, divergesB q ps = true →
          getNode (.obj (setParts kvs ps v)) q = getNode (.obj kvs) q := by
  induction ps with
  | nil => intro kvs v hne _; exact absurd rfl hne
  | cons p rest ih =>
    intro kvs v _ hchain
    cases rest with
    | nil =>
      constructor
      · simp [setParts, getNode, lookupRec_pyDictSet_self]
      · intro q hq
        cases q with
        | nil => simp [divergesB] at hq
        | cons a as =>
          by_cases hap : a = p
          · subst hap
            rw [divergesB, if_pos rfl] at hq
            cases as <;> simp [divergesB] at hq
          · simp [setParts, getNode, lookupRec_pyDictSet_ne _ _ _ _ hap]
    | cons q2 rest2 =>
      have hlk : ∃ k2, lookupRec kvs p = some (.obj k2)
          ∧ dictChainB k2 (q2 :: rest2) = true := by
        rw [dictChainB] at hchain
        cases hl : lookupRec kvs p with
        | none => rw [hl] at hchain; simp at hchain
        | some w =>
          rw [hl] at hchain
          cases w with
          | obj k2 => exact ⟨k2, rfl, hchain⟩
          | null => simp at hchain
          | bool b => simp at hchain
          | num n => simp at hchain
          | str s => simp at hchain
          | arr xs => simp at hchain
      rcases hlk with ⟨k2, hl, hch2⟩
      have hsp : setParts kvs (p :: q2 :: rest2) v
          = pyDictSet kvs p (.obj (setParts k2 (q2 :: rest2) v)) := by
        rw [setParts, hl]
      constructor
      · rw [hsp, getNode, lookupRec_pyDictSet_self]
        exact (ih k2 v (by simp) hch2).1
      · intro q hq
        cases q with
        | nil => simp [divergesB] at hq
        | cons a as =>
          by_cases hap : a = p
          · subst hap
            rw [divergesB, if_pos rfl] at hq
            rw [hsp, getNode, lookupRec_pyDictSet_self]
            rw [getNode, hl]
            exact (ih k2 v (by simp) hch2).2 as hq
          · rw [hsp, getNode, lookupRec_pyDictSet_ne _ _ _ _ hap, getNode]

/-- Claim C8 (amended): for a dict primary document and a non-sentinel root
whose intermediate hops all exist as dicts, `build_merged_output_container`
returns a document holding the merged payload at the root path and agreeing
with the primary document at every path diverging from the root path.  (In
this pure model the Python `deepcopy` is an identity, so caller data is never
mutated by construction; when an intermediate hop is missing or not a dict,
`set_value_by_path` *overwrites* it with a fresh dict, which is what the
counterexample exhibits.) -/
theorem claim_C8_output_container (kvs : JRec) (root : String) (merged : JVal)
    (hroot : ¬(root = "" ∨ root = "(root)"))
    (hne : split_path root ≠ [])
    (hchain : dictChainB kvs (split_path root) = true) :
    ∃ out, build_merged_output_container (.obj kvs) root merged = some out
      ∧ getNode out (split_path root) = some merged
      ∧ ∀ q, divergesB q (split_path root) = true →
          getNode out q = getNode (.obj kvs) q := by
  rw [build_merged_output_container, if_neg hroot, set_value_by_path, if_neg hroot]
  cases hsp : split_path root with
  | nil => exact absurd hsp hne
  | cons p rest =>
    refine ⟨.obj (setParts kvs (p :: rest) merged), rfl, ?_, ?_⟩
    · rw [← hsp]
      rw [hsp] at hchain ⊢
      exact (setParts_getNode (p :: rest) kvs merged (by simp) hchain).1
    · rw [hsp] at hchain
      intro q hq
      exact (setParts_getNode (p :: rest) kvs merged (by simp) hchain).2 q hq

/-- Witness for Claim C8: writing at `a.x` into `{"a": {"x": 1}, "keep": 5}`
leaves every diverging path untouched. -/
theorem claim_C8_witness :
    ¬(("a.x" : String) = "" ∨ ("a.x" : String) = "(root)")
    ∧ split_path "a.x" ≠ []
    ∧ dictChainB [("a", JVal.obj [("x", JVal.num 1)]), ("keep", JVal.num 5)]
        (split_path "a.x") = true
    ∧ ∃ out, build_merged_output_container
          (.obj [("a", JVal.obj [("x", JVal.num 1)]), ("keep", JVal.num 5)])
          "a.x" (.arr []) = some out
        ∧ getNode out (split_path "a.x") = some (.arr [])
        ∧ ∀ q, divergesB q (split_path "a.x") = true →
            getNode out q
              = getNode (.obj [("a", JVal.obj [("x", JVal.num 1)]),
                  ("keep", JVal.num 5)]) q :=
  ⟨by decide, by decide, by decide,
   claim_C8_output_container _ "a.x" (.arr []) (by decide) (by decide) (by decide)⟩

/-- Counterexample to Claim C8 as stated: with primary `{"a": 1}` and root
`a.b`, the node at path `a` — which is *not* the node addressed by the root
path — changes from `1` to `{"b": []}`, because `set_value_by_path`
overwrites the non-dict intermediate. -/
theorem claim_C8_counterexample :
    build_merged_output_container (.obj [("a", JVal.num 1)]) "a.b" (.arr [])
        = some (.obj [("a", JVal.obj [("b", JVal.arr [])])])
    ∧ getNode (.obj [("a", JVal.obj [("b", JVal.arr [])])]) ["a"]
        = some (.obj [("b", JVal.arr [])])
    ∧ getNode (.obj [("a", JVal.num 1)]) ["a"] = some (JVal.num 1)
    ∧ JVal.obj [("b", JVal.arr [])] ≠ JVal.num 1 := by
  refine ⟨?_, rfl, rfl, ?_⟩
  · have hsp : split_path "a.b" = ["a", "b"] := by decide
    rw [build_merged_output_container, if_neg (by decide), set_value_by_path,
      if_neg (by decide), hsp]
    rfl
  · intro h
    cases h

theorem previewRow_eq_exportRow (data : JVal) (fields : List String)
    (mapping : List (String × String)) (root : String) :
    previewRow data fields mapping root = exportRow data fields mapping root := rfl

theorem pvRecs_spec (lim : Nat) (mk : JRec → JRec) :
    ∀ (rs : List JRec) (rows : List JRec), rows.length < lim →
      pvRecs lim mk rs rows
        = ((rows ++ rs.map mk).take lim, decide (lim ≤ rows.length + rs.length)) := by
  intro rs
  induction rs with
  | nil =>
    intro rows hlt
    rw [pvRecs]
    simp [List.take_of_length_le (Nat.le_of_lt hlt), Nat.not_le.mpr hlt]
  | cons r rs' ih =>
    intro rows hlt
    rw [pvRecs]
    by_cases hstop : lim ≤ (rows ++ [mk r]).length
    · rw [if_pos hstop]
      have hlim : lim = rows.length + 1 := by
        simp at hstop
        omega
      have htake : ((rows ++ (r :: rs').map mk).take lim) = rows ++ [mk r] := by
        rw [List.map_cons,
          show rows ++ (mk r :: rs'.map mk) = (rows ++ [mk r]) ++ rs'.map mk by simp,
          List.take_append_of_le_length (by simp; omega)]
        exact List.take_of_length_le (by simp; omega)
      rw [htake]
      have hd2 : lim ≤ rows.length + (r :: rs').length := by simp; omega
      rw [decide_eq_true hd2]
    · rw [if_neg hstop]
      have hlt2 : (rows ++ [mk r]).length < lim := Nat.lt_of_not_le hstop
      rw [ih (rows ++ [mk r]) hlt2]
      have : rows ++ [mk r] ++ rs'.map mk = rows ++ (r :: rs').map mk := by simp
      rw [this]
      have hlen : (rows ++ [mk r]).length + rs'.length = rows.length + (r :: rs').length := by
        simp; omega
      rw [hlen]

theorem pvGroups_spec (lim : Nat) (mk : JRec → JRec) :
    ∀ (gs : List (List JRec)) (rows : List JRec), rows.length < lim →
      pvGroups lim mk gs rows = (rows ++ (gs.flatten).map mk).take lim := by
  intro gs
  induction gs with
  | nil =>
    intro rows hlt
    rw [pvGroups]
    simp [List.take_of_length_le (Nat.le_of_lt hlt)]
  | cons g gs' ih =>
    intro rows hlt
    rw [pvGroups, pvRecs_spec lim mk g rows hlt]
    by_cases hflag : lim ≤ rows.length + g.length
    · rw [decide_eq_true hflag]
      show (rows ++ g.map mk).take lim
          = (rows ++ ((g :: gs').flatten).map mk).take lim
      have hR : rows ++ ((g :: gs').flatten).map mk
          = (rows ++ g.map mk) ++ (gs'.flatten).map mk := by simp
      conv_rhs => rw [hR, List.take_append_of_le_length (by simp; omega)]
    · rw [decide_eq_false hflag]
      show pvGroups lim mk gs' ((rows ++ g.map mk).take lim) = _
      have hself : (rows ++ g.map mk).take lim = rows ++ g.map mk := by
        apply List.take_of_length_le
        simp
        omega
      rw [hself, ih _ (by simp; omega)]
      simp

/-- Claim C9 (amended): for a non-empty field selection and a positive row
limit, `flatten_data_for_preview` returns exactly the prefix of length at
most `limit` of the rows of `flatten_data_for_export` on the same arguments
(the two apply identical per-row logic; preview short-circuits at the limit).
With an empty field selection, preview returns `[]` while export still emits
one empty row per record. -/
theorem claim_C9_preview_prefix (data : JVal) (fields : List String)
    (mapping : List (String × String)) (root : String) (limit : Nat)
    (hf : fields ≠ []) (hl : 1 ≤ limit) :
    flatten_data_for_preview data fields mapping root limit
      = (flatten_data_for_export data fields mapping root).take limit := by
  rw [flatten_data_for_preview, flatten_data_for_export]
  by_cases hd : data.isNull = true
  · rw [if_pos (Or.inl hd)]
    have hitems : resolve_items_by_root data root = [] := by
      rw [resolve_items_by_root.eq_def, if_pos hd]
    have hres : resolve_groups_for_merge data root = ([], false) := by
      rw [resolve_groups_for_merge, hitems]
      rfl
    rw [hres]
    simp
  · have hcond : ¬(data.isNull = true ∨ fields.isEmpty = true) := by
      rintro (h | h)
      · exact hd h
      · exact hf (by simpa using h)
    rw [if_neg hcond]
    have hmax : max 1 limit = limit := by omega
    rw [hmax, pvGroups_spec limit _ _ [] (by simpa using hl)]
    rw [previewRow_eq_exportRow]
    simp

/-- Witness for Claim C9 on a concrete three-record document with limit 2. -/
theorem claim_C9_witness :
    (["a"] : List String) ≠ []
    ∧ (1 : Nat) ≤ 2
    ∧ flatten_data_for_preview
        (.arr [.obj [("a", JVal.num 1)], .obj [("a", JVal.num 2)], .obj [("a", JVal.num 3)]])
        ["a"] [] "(root)" 2
      = (flatten_data_for_export
          (.arr [.obj [("a", JVal.num 1)], .obj [("a", JVal.num 2)], .obj [("a", JVal.num 3)]])
          ["a"] [] "(root)").take 2 :=
  ⟨by decide, by decide,
   claim_C9_preview_prefix _ ["a"] [] "(root)" 2 (by decide) (by decide)⟩

/-- Counterexample to Claim C9 as stated: with an *empty* selected-field
list, preview returns `[]` but export produces one (empty) row per record, so
preview is not the limit-prefix of export. -/
theorem claim_C9_counterexample :
    flatten_data_for_preview (.obj [("a", JVal.num 1)]) [] [] "(root)" 3 = []
    ∧ (flatten_data_for_export (.obj [("a", JVal.num 1)]) [] [] "(root)").take 3
        = [[]]
    ∧ ([] : List JRec) ≠ [[]] := by
  refine ⟨rfl, rfl, ?_⟩
  intro h
  cases h

/-- Claim C7 (amended): in both flatteners every row entry is the mapped
column name paired with `renderValueSpec` of the resolved value: scalar-only
lists are joined with `", "` (nulls as empty strings), any other *list* is
serialized to a compact JSON string (the `str()` fallback being unreachable
for parsed JSON), and non-list results — objects included — pass through
unchanged. -/
theorem claim_C7_value_rendering (data : JVal) (fields : List String)
    (mapping : List (String × String)) (root : String) (limit : Nat) :
    flatten_data_for_export data fields mapping root
      = ((resolve_groups_for_merge data root).1.flatten).map (fun record =>
          fields.foldl (fun row f =>
            pyDictSet row ((lookupName mapping f).getD f)
              (renderValueSpec (resolve_field_value data (.obj record) f root))) [])
    ∧ flatten_data_for_preview data fields mapping root limit
      = if data.isNull = true ∨ fields.isEmpty = true then []
        else (((resolve_groups_for_merge data root).1.flatten).map (fun record =>
            fields.foldl (fun row f =>
              pyDictSet row ((lookupName mapping f).getD f)
                (renderValueSpec (resolve_field_value data (.obj record) f root)))
              [])).take (max 1 limit) := by
  have hrow : exportRow data fields mapping root = fun record =>
      fields.foldl (fun row f =>
        pyDictSet row ((lookupName mapping f).getD f)
          (renderValueSpec (resolve_field_value data (.obj record) f root))) [] := rfl
  constructor
  · rw [flatten_data_for_export, hrow]
  · rw [flatten_data_for_preview]
    by_cases hcond : data.isNull = true ∨ fields.isEmpty = true
    · rw [if_pos hcond, if_pos hcond]
    · rw [if_neg hcond, if_neg hcond]
      rw [pvGroups_spec (max 1 limit) _ _ [] (by simp)]
      rw [previewRow_eq_exportRow, hrow]
      simp

/-- Counterexample to Claim C7 as stated: a field resolving to an *object* is
not serialized to a JSON string — the dict itself is placed in the row. -/
theorem claim_C7_counterexample :
    flatten_data_for_export (.obj [("a", .obj [("b", JVal.num 1)])]) ["a"] [] "(root)"
        = [[("a", JVal.obj [("b", JVal.num 1)])]]
    ∧ ([[("a", JVal.obj [("b", JVal.num 1)])]] : List JRec)
        ≠ [[("a", JVal.str (pyDumps false (.obj [("b", JVal.num 1)])))]] := by
  constructor
  · have hsplit : split_path "a" = ["a"] := by decide
    simp only [flatten_data_for_export, resolve_groups_for_merge, resolve_items_by_root,
      rgfmLoop, onlyDicts, exportRow, resolve_field_value, get_value_by_path, hsplit,
      goPath, lookupRec, JVal.isNull, pyDictSet, lookupName, List.flatten, List.map,
      List.foldl]
    simp
  · simp

theorem erkRecs_spec (rs : List JRec) :
    ∀ (rem : Int), 1 ≤ rem → ∀ ks,
      erkRecs rs rem ks
        = if rem.toNat ≤ rs.length
          then ((rs.take rem.toNat).foldl erkUpd ks, 0, true)
          else (rs.foldl erkUpd ks, rem - rs.length, false) := by
  induction rs with
  | nil =>
    intro rem hrem ks
    rw [erkRecs, if_neg (by simp; omega)]
    simp
  | cons r rs' ih =>
    intro rem hrem ks
    rw [erkRecs]
    by_cases h1 : rem - 1 ≤ 0
    · have hrem1 : rem = 1 := by omega
      subst hrem1
      rw [if_pos (by decide), if_pos (by simp)]
      simp [List.take_succ_cons]
    · rw [if_neg h1]
      have hrem2 : (1 : Int) ≤ rem - 1 := by omega
      rw [ih (rem - 1) hrem2 (erkUpd ks r)]
      by_cases h2 : (rem - 1).toNat ≤ rs'.length
      · rw [if_pos h2, if_pos (by simp; omega)]
        have htn : rem.toNat = (rem - 1).toNat + 1 := by omega
        rw [htn, List.take_succ_cons, List.foldl_cons]
      · rw [if_neg h2, if_neg (by simp; omega)]
        conv_rhs => rw [List.foldl_cons]
        have h3 : rem - 1 - (rs'.length : Int) = rem - ((r :: rs').length : Int) := by
          simp only [List.length_cons]
          push_cast
          omega
        rw [h3]

theorem erkGroups_spec (gs : List (List JRec)) :
    ∀ (rem : Int), 1 ≤ rem → ∀ ks,
      erkGroups gs rem ks = ((gs.flatten).take rem.toNat).foldl erkUpd ks := by
  induction gs with
  | nil => intro rem hrem ks; simp [erkGroups]
  | cons g gs' ih =>
    intro rem hrem ks
    rw [erkGroups, erkRecs_spec g rem hrem ks]
    by_cases h : rem.toNat ≤ g.length
    · rw [if_pos h]
      show (g.take rem.toNat).foldl erkUpd ks = _
      rw [List.flatten_cons]
      conv_rhs => rw [List.take_append_of_le_length h]
    · rw [if_neg h]
      show erkGroups gs' (rem - g.length) (g.foldl erkUpd ks) = _
      have hge : (1 : Int) ≤ rem - g.length := by omega
      rw [ih (rem - g.length) hge (g.foldl erkUpd ks)]
      conv_rhs => rw [List.flatten_cons, List.take_append_eq_append_take,
        List.take_of_length_le (by omega : g.length ≤ rem.toNat), List.foldl_append]
      have htn : (rem - (g.length : Int)).toNat = rem.toNat - g.length := by omega
      rw [htn]

/-- Claim C10 (amended): for every sample size of at least one,
`extract_record_keys` returns the sorted union of `extract_all_keys` over
exactly the first `min(sample_size, total)` records, in group order, under
the resolved root — any key occurring only in later records is absent.  For
sample sizes of zero or less the code still processes the *first* record
(the counter is decremented after the update), so the claim's bound fails
there. -/
theorem claim_C10_sampled_keys (data : JVal) (root : String) (n : Int)
    (hn : 1 ≤ n) :
    extract_record_keys data root n
      = sortStrings
          ((((resolve_groups_for_merge data root).1.flatten).take n.toNat).foldl
            erkUpd []) := by
  rw [extract_record_keys, show max 0 n = n by omega,
    erkGroups_spec (resolve_groups_for_merge data root).1 n hn []]

/-- Witness for Claim C10: three records, sample size 2. -/
theorem claim_C10_witness :
    (1 : Int) ≤ 2
    ∧ extract_record_keys
        (.arr [.obj [("a", JVal.num 1)], .obj [("b", JVal.num 2)],
               .obj [("c", JVal.num 3)]]) "(root)" 2
      = sortStrings
          ((((resolve_groups_for_merge
              (.arr [.obj [("a", JVal.num 1)], .obj [("b", JVal.num 2)],
                     .obj [("c", JVal.num 3)]]) "(root)").1.flatten).take
            (2 : Int).toNat).foldl erkUpd []) :=
  ⟨by decide,
   claim_C10_sampled_keys
     (.arr [.obj [("a", JVal.num 1)], .obj [("b", JVal.num 2)],
            .obj [("c", JVal.num 3)]]) "(root)" 2 (by decide)⟩

/-- Counterexample to Claim C10 as stated: with sample size `0`, the claim
demands that a key occurring only in records after the first `0` records be
absent; the code nevertheless processes the first record, so its key `a`
appears in the result. -/
theorem claim_C10_counterexample :
    extract_record_keys (.arr [.obj [("a", JVal.num 1)]]) "(root)" 0 = ["a"]
    ∧ (resolve_groups_for_merge
        (.arr [.obj [("a", JVal.num 1)]]) "(root)").1.flatten.length = 1 := by
  constructor
  · simp only [extract_record_keys, resolve_groups_for_merge, resolve_items_by_root,
      rgfmLoop, onlyDicts, erkGroups, erkRecs, erkUpd, setUnion, setAdd,
      extract_all_keys, eakPairs, eakItems, escape_path_segment, escapeChars,
      escChar, sortStrings, insertSortedStr, JVal.isNull, List.flatten, List.foldl,
      List.foldr]
    simp
    rfl
  · decide
